import Mathlib

/-!
Shallow embedding of the library inventory system
(src/Position.h, src/Item.h, src/Inventory.h, src/Inventory.cpp).

The C++ `Inventory` object mutates in place and signals failure by throwing;
here every operation returns the post-state paired with the thrown error (if
any), so that the state at the moment of a throw is visible in the model.
-/

/-- Error kinds for the exceptions thrown by `Inventory`:
`out_of_range("Position is out of valid range")` / `("Position is out of range")`
↦ `invalidPosition`, `runtime_error("Compartment is not empty")` ↦ `slotOccupied`,
`runtime_error("Item with ID ... not found")` ↦ `itemNotFound`,
`runtime_error("Item is not checked out")` ↦ `notCheckedOut`,
`runtime_error("Cannot swap: one or both compartments are empty")` ↦ `emptySlot`. -/
inductive InvError where
  | invalidPosition
  | slotOccupied
  | itemNotFound
  | notCheckedOut
  | emptySlot
deriving DecidableEq, Repr

/-- The item hierarchy of Item.h: the base class `Item` carries
(name, description, id); the derived classes `Book`, `Magazine`, `Movie`
add their subtype-specific fields. -/
inductive Item where
  | base (name description : String) (id : Int)
  | book (name description : String) (id : Int) (title author copyrightDate : String)
  | magazine (name description : String) (id : Int) (edition title : String)
  | movie (name description : String) (id : Int) (title director : String)
      (mainActors : List String)
deriving DecidableEq, Repr

/-- `Item::getID` (the id lives in the base subobject). -/
def Item.getID : Item → Int
  | .base _ _ i => i
  | .book _ _ i _ _ _ => i
  | .magazine _ _ i _ _ => i
  | .movie _ _ i _ _ _ => i

/-- Copy construction at static type `Item`, as performed by
`make_unique<Item>(item)` in `Inventory::addItem` (Inventory.cpp line 126):
only the base-class subobject (name, description, id) is copied; the fields of
a derived object are sliced off. -/
def Item.slice : Item → Item
  | .base n d i => .base n d i
  | .book n d i _ _ _ => .base n d i
  | .magazine n d i _ _ => .base n d i
  | .movie n d i _ _ _ => .base n d i

/-- `Inventory::getStringId`: `std::to_string` of the integer id
(decimal form, leading minus sign for negatives — same as `toString` on `Int`). -/
def getStringId (id : Int) : String := toString id

/-- `Position` of Position.h: a (row, col) pair of C++ `int`s. -/
structure Position where
  row : Int
  col : Int
deriving DecidableEq, Repr

/-- `Position::isValid`: `row >= 0 && row < 3 && col >= 0 && col < 15`. -/
def Position.isValid (p : Position) : Bool :=
  decide (0 ≤ p.row) && decide (p.row < 3) && decide (0 ≤ p.col) && decide (p.col < 15)

/-- Row-major flat index of a position into the 3×15 shelf array
(`shelves[row][col]` ↦ index `row * 15 + col`). -/
def posIdx (p : Position) : Nat := p.row.toNat * 15 + p.col.toNat

/-- Gregorian leap-year rule, as used by the C library's calendar. -/
def isLeap (y : Nat) : Bool := (y % 4 == 0 && y % 100 != 0) || y % 400 == 0

/-- Length of a month of the Gregorian calendar. -/
def daysInMonth (y m : Nat) : Nat :=
  if m == 2 then (if isLeap y then 29 else 28)
  else if m == 4 || m == 6 || m == 9 || m == 11 then 30
  else 31

/-- `mktime`-style normalisation of an overflowed day-of-month into a proper
calendar date, modelling `tm.tm_mday += 30; mktime(&tm);` in
`Inventory::checkoutItem` (Inventory.cpp lines 155-158).  Written with an
explicit fuel argument to make it structurally recursive; the day count itself
is always sufficient fuel since every iteration removes at least 28 days.
(Human month numbers 1..12 are used; the `tm_mon` 0..11 / `tm_year` −1900
offsets of `struct tm` are absorbed by `%m` / `%Y` at formatting time.) -/
def normD : Nat → Nat → Nat → Nat → Nat × Nat × Nat
  | 0, y, m, d => (y, m, d)
  | fuel + 1, y, m, d =>
    if d > daysInMonth y m then
      if 12 ≤ m then normD fuel (y + 1) 1 (d - daysInMonth y m)
      else normD fuel y (m + 1) (d - daysInMonth y m)
    else (y, m, d)

/-- A calendar date (year, month 1..12, day 1..31), the date part of the
`struct tm` that `localtime` fills in at checkout time. -/
structure Date where
  year : Nat
  month : Nat
  day : Nat
deriving DecidableEq, Repr

/-- A well-formed calendar date, as `localtime` always delivers. -/
def Date.wf (t : Date) : Prop :=
  1 ≤ t.month ∧ t.month ≤ 12 ∧ 1 ≤ t.day ∧ t.day ≤ daysInMonth t.year t.month

instance (t : Date) : Decidable t.wf := by unfold Date.wf; infer_instance

/-- The date computed by checkout: the current date with 30 added to its
day-of-month, then normalised the way `mktime` does. -/
def addDays30 (t : Date) : Date :=
  let r := normD (t.day + 30) t.year t.month (t.day + 30)
  ⟨r.1, r.2.1, r.2.2⟩

/-- Two-digit zero padding, as `%m` / `%d` of `put_time` produce. -/
def pad2 (n : Nat) : String := if n < 10 then "0" ++ toString n else toString n

/-- `put_time(&tm, "%Y-%m-%d")`. -/
def formatDate (t : Date) : String :=
  toString t.year ++ "-" ++ pad2 t.month ++ "-" ++ pad2 t.day

/-- Modelled from the spec: the next calendar day (day + 1, rolling into the
next month, and from December into January of the next year).  This is the
spec-side meaning of one "calendar day"; it is compared against the code-side
`addDays30` in the claim about due dates. -/
def specNextDay (t : Date) : Date :=
  if t.day + 1 > daysInMonth t.year t.month then
    if t.month = 12 then ⟨t.year + 1, 1, 1⟩ else ⟨t.year, t.month + 1, 1⟩
  else ⟨t.year, t.month, t.day + 1⟩

/-- Modelled from the spec: "current date + N calendar days", N iterations of
the calendar successor. -/
def specAddDays (n : Nat) (t : Date) : Date := specNextDay^[n] t

/-- `CheckoutInfo` of Inventory.h. -/
structure CheckoutInfo where
  checkedOutBy : String
  dueDate : String
  originalPosition : Position
  item : Item
deriving DecidableEq, Repr

/-- The `std::map<string, CheckoutInfo>` of checked-out items, modelled as an
association list; `find` / `emplace` / `erase` below follow the map's
semantics, and key order is irrelevant to every property considered here. -/
abbrev Ledger := List (String × CheckoutInfo)

/-- `map::find(k)` (as an optional value). -/
def lookupL (l : Ledger) (k : String) : Option CheckoutInfo :=
  (l.find? (fun p => p.1 == k)).map Prod.snd

/-- `map::emplace(k, v)`: inserts only when the key is absent; when the key is
already present the map is unchanged (and in the C++ code the argument
`CheckoutInfo` — holding the item moved off the shelf — is destroyed). -/
def emplaceL (l : Ledger) (k : String) (v : CheckoutInfo) : Ledger :=
  if (lookupL l k).isSome then l else (k, v) :: l

/-- `map::erase(it)` where `it = find(k)`: removes the single entry with key `k`. -/
def eraseL (l : Ledger) (k : String) : Ledger :=
  l.eraseP (fun p => p.1 == k)

/-- The `Inventory` state: `unique_ptr<Item> shelves[3][15]` flattened
row-major into a list of 45 optional items (index `row * 15 + col`), plus the
map of checked-out items. -/
structure Inventory where
  shelves : List (Option Item)
  checkedOutItems : Ledger
deriving DecidableEq, Repr

/-- `Inventory::Inventory()`: all 45 compartments empty, no checkouts. -/
def Inventory.empty : Inventory := ⟨List.replicate 45 none, []⟩

/-- Contents of the slot `shelves[pos.row][pos.col]`. -/
def Inventory.slotAt (inv : Inventory) (p : Position) : Option Item :=
  (inv.shelves[posIdx p]?).join

/-- `Inventory::isCompartmentEmpty` (a const method: it cannot mutate). -/
def Inventory.isCompartmentEmpty (inv : Inventory) (pos : Position) :
    Except InvError Bool :=
  if !pos.isValid then .error .invalidPosition
  else .ok (inv.slotAt pos).isNone

/-- `Inventory::isItemCheckedOut`. -/
def Inventory.isItemCheckedOut (inv : Inventory) (itemId : String) : Bool :=
  (lookupL inv.checkedOutItems itemId).isSome

/-- `Inventory::addItem` (Inventory.cpp lines 115-127): validate the position,
require the compartment empty, then store a fresh copy of the item — copied at
static type `Item`, hence sliced (see `Item.slice`). -/
def Inventory.addItem (inv : Inventory) (position : Position) (item : Item) :
    Inventory × Option InvError :=
  if !position.isValid then (inv, some .invalidPosition)
  else if !(inv.slotAt position).isNone then (inv, some .slotOccupied)
  else ({ inv with shelves := inv.shelves.set (posIdx position) (some item.slice) },
        none)

/-- The scan of `Inventory::checkoutItem` (Inventory.cpp lines 151-153): first
occupied slot, in row-major order, whose item's string id equals `itemId`
(returned with its flat index). -/
def scanShelves (itemId : String) : List (Option Item) → Option (Nat × Item)
  | [] => none
  | slot :: rest =>
    match slot with
    | some it =>
      if getStringId it.getID == itemId then some (0, it)
      else (scanShelves itemId rest).map (fun r => (r.1 + 1, r.2))
    | none => (scanShelves itemId rest).map (fun r => (r.1 + 1, r.2))

/-- `Inventory::checkoutItem` (Inventory.cpp lines 149-183).  `today` is the
date that `localtime(time(nullptr))` delivers at call time.  On a match at flat
index `k` the slot is vacated (the `unique_ptr` is moved out) and a checkout
record is `emplace`d under `itemId`; the moved-out item is returned. -/
def Inventory.checkoutItem (inv : Inventory) (itemId checkOutBy : String)
    (today : Date) : Inventory × Except InvError Item :=
  match scanShelves itemId inv.shelves with
  | none => (inv, .error .itemNotFound)
  | some (k, it) =>
    let dueDate := formatDate (addDays30 today)
    let pos : Position := ⟨(k : Int) / 15, (k : Int) % 15⟩
    ({ shelves := inv.shelves.set k none,
       checkedOutItems := emplaceL inv.checkedOutItems itemId
         ⟨checkOutBy, dueDate, pos, it⟩ },
     .ok it)

/-- `Inventory::checkinItem` (Inventory.cpp lines 200-217): look the string id
up in the map; if absent, throw; otherwise write the record's item back into
the slot at its original position (unconditionally — any current occupant of
that slot is overwritten) and erase the record. -/
def Inventory.checkinItem (inv : Inventory) (item : Item) :
    Inventory × Option InvError :=
  let itemId := getStringId item.getID
  match lookupL inv.checkedOutItems itemId with
  | none => (inv, some .notCheckedOut)
  | some info =>
    ({ shelves := inv.shelves.set (posIdx info.originalPosition) (some info.item),
       checkedOutItems := eraseL inv.checkedOutItems itemId },
     none)

/-- `Inventory::swapItems` (Inventory.cpp lines 233-246): validate both
positions, require both compartments occupied, then exchange the two slots. -/
def Inventory.swapItems (inv : Inventory) (pos1 pos2 : Position) :
    Inventory × Option InvError :=
  if !pos1.isValid || !pos2.isValid then (inv, some .invalidPosition)
  else if (inv.slotAt pos1).isNone || (inv.slotAt pos2).isNone then
    (inv, some .emptySlot)
  else
    let s := (inv.shelves.set (posIdx pos1) (inv.slotAt pos2)).set (posIdx pos2)
      (inv.slotAt pos1)
    ({ inv with shelves := s }, none)

/-- One public mutating operation together with its arguments (the interface
exercised by main.cpp's menu loop). -/
inductive Op where
  | add (pos : Position) (item : Item)
  | checkout (itemId checkOutBy : String) (today : Date)
  | checkin (item : Item)
  | swapOp (pos1 pos2 : Position)
deriving DecidableEq, Repr

/-- Apply one operation: post-state paired with the thrown error, if any. -/
def applyOp (inv : Inventory) : Op → Inventory × Option InvError
  | .add pos item => inv.addItem pos item
  | .checkout itemId who today =>
    let r := inv.checkoutItem itemId who today
    (r.1, match r.2 with | .ok _ => none | .error e => some e)
  | .checkin item => inv.checkinItem item
  | .swapOp p1 p2 => inv.swapItems p1 p2

/-- Run a sequence of operations, keeping each post-state. -/
def runTrace (inv : Inventory) : List Op → Inventory
  | [] => inv
  | op :: rest => runTrace (applyOp inv op).1 rest

/-- Every operation of the trace succeeds (throws nothing), and before each
operation the side condition `cond` holds of the current state and the
operation. -/
def okTrace (cond : Inventory → Op → Bool) (inv : Inventory) : List Op → Bool
  | [] => true
  | op :: rest =>
    cond inv op && (applyOp inv op).2.isNone && okTrace cond (applyOp inv op).1 rest

/-- The string ids of the items added by a trace. -/
def addedIds (ops : List Op) : List String :=
  ops.filterMap (fun op => match op with
    | .add _ item => some (getStringId item.getID)
    | _ => none)

/-- String ids of the items resident on the grid. -/
def gridIds (inv : Inventory) : List String :=
  inv.shelves.filterMap (fun slot => slot.map (fun it => getStringId it.getID))

/-- Keys of the checked-out map. -/
def ledgerIds (inv : Inventory) : List String :=
  inv.checkedOutItems.map Prod.fst

/-- All identities live in the system (grid-resident ids and ledger keys). -/
def liveIds (inv : Inventory) : List String := gridIds inv ++ ledgerIds inv

/-- All items held anywhere in the system: grid slots and checkout records. -/
def liveItems (inv : Inventory) : List Item :=
  inv.shelves.filterMap id ++ inv.checkedOutItems.map (fun p => p.2.item)

/-- The spec's "externally unique item identities" assumption, as a side
condition on an operation: an added item's identity is not already live. -/
def freshB (inv : Inventory) : Op → Bool
  | .add _ item => !((liveIds inv).contains (getStringId item.getID))
  | _ => true

/-- Side condition: the operation is not an `addItem` at some checked-out
item's original position (the interleaving that checkin would overwrite). -/
def noShadowB (inv : Inventory) : Op → Bool
  | .add pos _ => inv.checkedOutItems.all (fun p => !(p.2.originalPosition == pos))
  | _ => true

/-- Both side conditions together. -/
def safeB (inv : Inventory) (op : Op) : Bool := freshB inv op && noShadowB inv op

/-- State invariant maintained by every state reachable under the uniqueness
and no-shadow side conditions: the shelf array keeps its 45 slots, live
identities are pairwise distinct (hence grid and ledger are disjoint), every
ledger key is the string id of the record's item, and every checkout record
points back to a valid original position whose slot is still empty, no two
records sharing that position. -/
structure GoodInv (inv : Inventory) : Prop where
  len : inv.shelves.length = 45
  nodup : (liveIds inv).Nodup
  keyId : ∀ p ∈ inv.checkedOutItems, p.1 = getStringId p.2.item.getID
  origValid : ∀ p ∈ inv.checkedOutItems, p.2.originalPosition.isValid = true
  origEmpty : ∀ p ∈ inv.checkedOutItems,
    inv.shelves[posIdx p.2.originalPosition]? = some none
  origDistinct : inv.checkedOutItems.Pairwise
    (fun p q => p.2.originalPosition ≠ q.2.originalPosition)

/-- Items added (in sliced, stored form) by one operation. -/
def addedItems : Op → List Item
  | .add _ item => [item.slice]
  | _ => []

/-- Slicing keeps the base-subobject id. -/
theorem Item.getID_slice (it : Item) : it.slice.getID = it.getID := by
  cases it <;> rfl

theorem posIdx_lt_45 {p : Position} (h : p.isValid = true) : posIdx p < 45 := by
  simp only [Position.isValid, Bool.and_eq_true, decide_eq_true_eq] at h
  simp only [posIdx]
  omega

theorem posIdx_inj {p q : Position} (hp : p.isValid = true) (hq : q.isValid = true)
    (h : posIdx p = posIdx q) : p = q := by
  simp only [Position.isValid, Bool.and_eq_true, decide_eq_true_eq] at hp hq
  simp only [posIdx] at h
  obtain ⟨pr, pc⟩ := p
  obtain ⟨qr, qc⟩ := q
  simp only [Position.mk.injEq]
  simp only at hp hq h
  constructor <;> omega

theorem posIdx_mk (k : Nat) : posIdx ⟨(k : Int) / 15, (k : Int) % 15⟩ = k := by
  simp only [posIdx]
  omega

theorem posValid_mk {k : Nat} (h : k < 45) :
    (⟨(k : Int) / 15, (k : Int) % 15⟩ : Position).isValid = true := by
  simp only [Position.isValid, Bool.and_eq_true, decide_eq_true_eq]
  omega

theorem perm_cons_eraseIdx :
    ∀ (l : List α) (k : Nat) (a : α), l[k]? = some a → l.Perm (a :: l.eraseIdx k)
  | [], k, a, h => by simp at h
  | x :: xs, 0, a, h => by
    simp only [List.getElem?_cons_zero, Option.some.injEq] at h
    subst h
    simp [List.eraseIdx]
  | x :: xs, k + 1, a, h => by
    simp only [List.getElem?_cons_succ] at h
    have ih := perm_cons_eraseIdx xs k a h
    simp only [List.eraseIdx_cons_succ]
    exact (ih.cons x).trans (List.Perm.swap a x _)

theorem set_perm_cons_eraseIdx :
    ∀ (l : List α) (k : Nat) (a b : α), l[k]? = some a →
      (l.set k b).Perm (b :: l.eraseIdx k)
  | [], k, a, b, h => by simp at h
  | x :: xs, 0, a, b, h => by simp [List.eraseIdx]
  | x :: xs, k + 1, a, b, h => by
    simp only [List.getElem?_cons_succ] at h
    have ih := set_perm_cons_eraseIdx xs k a b h
    simp only [List.set_cons_succ, List.eraseIdx_cons_succ]
    exact (ih.cons x).trans (List.Perm.swap b x _)

theorem lookupL_eq_none {l : Ledger} {k : String} :
    lookupL l k = none ↔ k ∉ l.map Prod.fst := by
  simp only [lookupL, Option.map_eq_none', List.find?_eq_none, List.mem_map]
  constructor
  · rintro h ⟨p, hp, rfl⟩
    exact (by simpa using h p hp)
  · intro h p hp
    simp only [beq_iff_eq]
    exact fun e => h ⟨p, hp, e⟩

theorem lookupL_perm_erase :
    ∀ {l : Ledger} {k : String} {info : CheckoutInfo}, lookupL l k = some info →
      l.Perm ((k, info) :: eraseL l k)
  | [], k, info, h => by simp [lookupL] at h
  | p :: rest, k, info, h => by
    by_cases hk : (p.1 == k) = true
    · have hkey : p.1 = k := by simpa using hk
      have hinfo : p.2 = info := by
        simp only [lookupL, List.find?_cons, hk] at h
        simpa using h
      have : p = (k, info) := by
        obtain ⟨p1, p2⟩ := p
        simp_all
      subst this
      simp only [eraseL, List.eraseP_cons, hk]
      simp
    · have hrest : lookupL rest k = some info := by
        simpa [lookupL, List.find?_cons, hk] using h
      have ih := lookupL_perm_erase hrest
      have e : eraseL (p :: rest) k = p :: eraseL rest k := by
        simp [eraseL, List.eraseP_cons, hk]
      rw [e]
      exact (ih.cons p).trans (List.Perm.swap _ p _)

theorem gridIds_eq_map (inv : Inventory) :
    gridIds inv = (inv.shelves.filterMap id).map (fun it => getStringId it.getID) := by
  simp [gridIds, List.map_filterMap]

theorem ledgerIds_eq_map {inv : Inventory}
    (h : ∀ p ∈ inv.checkedOutItems, p.1 = getStringId p.2.item.getID) :
    ledgerIds inv =
      (inv.checkedOutItems.map (fun p => p.2.item)).map
        (fun it => getStringId it.getID) := by
  simp only [ledgerIds, List.map_map]
  exact List.map_congr_left (fun p hp => h p hp)

theorem liveIds_eq_map {inv : Inventory}
    (h : ∀ p ∈ inv.checkedOutItems, p.1 = getStringId p.2.item.getID) :
    liveIds inv = (liveItems inv).map (fun it => getStringId it.getID) := by
  rw [liveIds, liveItems, List.map_append, gridIds_eq_map, ledgerIds_eq_map h]

theorem slot_some_none {inv : Inventory} (hlen : inv.shelves.length = 45)
    {p : Position} (hp : p.isValid = true) (he : (inv.slotAt p).isNone = true) :
    inv.shelves[posIdx p]? = some none := by
  have hk : posIdx p < inv.shelves.length := by rw [hlen]; exact posIdx_lt_45 hp
  have := List.getElem?_eq_getElem hk
  simp only [Inventory.slotAt, this] at he ⊢
  cases h : inv.shelves[posIdx p] with
  | none => rfl
  | some it => rw [h] at he; simp [Option.join] at he

theorem slot_some_some {inv : Inventory} (hlen : inv.shelves.length = 45)
    {p : Position} (hp : p.isValid = true) (ho : (inv.slotAt p).isNone = false) :
    ∃ it, inv.shelves[posIdx p]? = some (some it) := by
  have hk : posIdx p < inv.shelves.length := by rw [hlen]; exact posIdx_lt_45 hp
  have := List.getElem?_eq_getElem hk
  simp only [Inventory.slotAt, this] at ho ⊢
  cases h : inv.shelves[posIdx p] with
  | none => rw [h] at ho; simp [Option.join] at ho
  | some it => exact ⟨it, rfl⟩

theorem scanShelves_lt_length {itemId : String} :
    ∀ {l : List (Option Item)} {k : Nat} {it : Item},
      scanShelves itemId l = some (k, it) → k < l.length := by
  intro l
  induction l with
  | nil => intro k it h; simp [scanShelves] at h
  | cons slot rest ih =>
    intro k it h
    match slot with
    | some x =>
      by_cases hm : (getStringId x.getID == itemId) = true
      · simp only [scanShelves, hm, if_pos] at h
        cases h
        simp
      · simp only [scanShelves, hm, if_neg, Bool.not_eq_true] at h
        simp only [Option.map_eq_some'] at h
        obtain ⟨⟨k', it'⟩, hr, he⟩ := h
        cases he
        simpa using Nat.succ_lt_succ (ih hr)
    | none =>
      simp only [scanShelves, Option.map_eq_some'] at h
      obtain ⟨⟨k', it'⟩, hr, he⟩ := h
      cases he
      simpa using Nat.succ_lt_succ (ih hr)

theorem scanShelves_getElem {itemId : String} :
    ∀ {l : List (Option Item)} {k : Nat} {it : Item},
      scanShelves itemId l = some (k, it) →
        l[k]? = some (some it) ∧ (getStringId it.getID == itemId) = true := by
  intro l
  induction l with
  | nil => intro k it h; simp [scanShelves] at h
  | cons slot rest ih =>
    intro k it h
    match slot with
    | some x =>
      by_cases hm : (getStringId x.getID == itemId) = true
      · simp only [scanShelves, hm, if_pos] at h
        cases h
        exact ⟨by simp, hm⟩
      · simp only [scanShelves, hm, if_neg, Bool.not_eq_true] at h
        simp only [Option.map_eq_some'] at h
        obtain ⟨⟨k', it'⟩, hr, he⟩ := h
        cases he
        simpa using ih hr
    | none =>
      simp only [scanShelves, Option.map_eq_some'] at h
      obtain ⟨⟨k', it'⟩, hr, he⟩ := h
      cases he
      simpa using ih hr

theorem scanShelves_first {itemId : String} :
    ∀ {l : List (Option Item)} {k : Nat} {it : Item},
      scanShelves itemId l = some (k, it) →
        ∀ j, j < k → ∀ it', l[j]? = some (some it') →
          (getStringId it'.getID == itemId) = false := by
  intro l
  induction l with
  | nil => intro k it h; simp [scanShelves] at h
  | cons slot rest ih =>
    intro k it h j hj it' hget
    match slot with
    | some x =>
      by_cases hm : (getStringId x.getID == itemId) = true
      · simp only [scanShelves, hm, if_pos] at h
        cases h
        omega
      · simp only [scanShelves, hm, if_neg, Bool.not_eq_true] at h
        simp only [Option.map_eq_some'] at h
        obtain ⟨⟨k', it''⟩, hr, he⟩ := h
        cases he
        match j with
        | 0 =>
          simp only [List.getElem?_cons_zero, Option.some.injEq] at hget
          cases hget
          simpa using hm
        | j' + 1 =>
          simp only [List.getElem?_cons_succ] at hget
          exact ih hr j' (by omega) it' hget
    | none =>
      simp only [scanShelves, Option.map_eq_some'] at h
      obtain ⟨⟨k', it''⟩, hr, he⟩ := h
      cases he
      match j with
      | 0 => simp at hget
      | j' + 1 =>
        simp only [List.getElem?_cons_succ] at hget
        exact ih hr j' (by omega) it' hget

theorem scanShelves_eq_none {itemId : String} :
    ∀ {l : List (Option Item)},
      scanShelves itemId l = none ↔
        ∀ slot ∈ l, ∀ it, slot = some it → (getStringId it.getID == itemId) = false := by
  intro l
  induction l with
  | nil => simp [scanShelves]
  | cons slot rest ih =>
    match slot with
    | some x =>
      by_cases hm : (getStringId x.getID == itemId) = true
      · simp only [scanShelves, hm, if_pos]
        constructor
        · intro h; cases h
        · intro h
          have := h (some x) (by simp) x rfl
          rw [hm] at this
          cases this
      · simp only [scanShelves, hm, if_neg, Bool.not_eq_true, Option.map_eq_none', ih]
        constructor
        · intro h s hs it hit
          rcases List.mem_cons.mp hs with rfl | hs'
          · cases hit; simpa using hm
          · exact h s hs' it hit
        · intro h s hs it hit
          exact h s (List.mem_cons_of_mem _ hs) it hit
    | none =>
      simp only [scanShelves, Option.map_eq_none', ih]
      constructor
      · intro h s hs it hit
        rcases List.mem_cons.mp hs with rfl | hs'
        · cases hit
        · exact h s hs' it hit
      · intro h s hs it hit
        exact h s (List.mem_cons_of_mem _ hs) it hit

theorem step_add {inv inv' : Inventory} {pos : Position} {item : Item}
    (hg : GoodInv inv)
    (hfresh : freshB inv (.add pos item) = true)
    (hshadow : noShadowB inv (.add pos item) = true)
    (hs : applyOp inv (.add pos item) = (inv', none)) :
    GoodInv inv' ∧ (liveItems inv').Perm (item.slice :: liveItems inv) := by
  simp only [applyOp, Inventory.addItem] at hs
  by_cases hv : pos.isValid = true
  swap
  · simp only [Bool.not_eq_true] at hv
    simp [hv] at hs
  by_cases he : (inv.slotAt pos).isNone = true
  swap
  · simp only [Bool.not_eq_true] at he
    simp [hv, he] at hs
  rw [if_neg (by simp [hv]), if_neg (by simp [he])] at hs
  rw [Prod.mk.injEq] at hs
  obtain ⟨hs, -⟩ := hs
  subst hs
  have hslot : inv.shelves[posIdx pos]? = some none := slot_some_none hg.len hv he
  have p1 := set_perm_cons_eraseIdx inv.shelves (posIdx pos) none (some item.slice) hslot
  have p2 := perm_cons_eraseIdx inv.shelves (posIdx pos) none hslot
  have q1 := p1.filterMap id
  have q2 := p2.filterMap id
  rw [List.filterMap_cons_some (rfl : id (some item.slice) = some item.slice)] at q1
  rw [List.filterMap_cons_none (rfl : id (none : Option Item) = none)] at q2
  have hperm : (liveItems { inv with
      shelves := inv.shelves.set (posIdx pos) (some item.slice) }).Perm
      (item.slice :: liveItems inv) := by
    simp only [liveItems]
    exact (q1.append_right _).trans (((q2.append_right _).symm).cons item.slice)
  have hne : ∀ p ∈ inv.checkedOutItems, p.2.originalPosition ≠ pos := by
    intro p hp
    simp only [noShadowB, List.all_eq_true] at hshadow
    have := hshadow p hp
    simp only [Bool.not_eq_true'] at this
    exact fun e => by simp [e] at this
  have hfresh' : getStringId item.getID ∉ liveIds inv := by
    simp only [freshB, Bool.not_eq_true'] at hfresh
    simpa using hfresh
  refine ⟨⟨?_, ?_, ?_, ?_, ?_, ?_⟩, hperm⟩
  · simp [hg.len]
  · have e1 : liveIds { inv with
        shelves := inv.shelves.set (posIdx pos) (some item.slice) } =
        (liveItems { inv with
          shelves := inv.shelves.set (posIdx pos) (some item.slice) }).map
          (fun it => getStringId it.getID) := liveIds_eq_map hg.keyId
    have e2 := liveIds_eq_map hg.keyId
    have hpm := hperm.map (fun it => getStringId it.getID)
    rw [← e1] at hpm
    simp only [List.map_cons, ← e2, Item.getID_slice] at hpm
    exact hpm.nodup_iff.mpr (List.nodup_cons.mpr ⟨hfresh', hg.nodup⟩)
  · exact hg.keyId
  · exact hg.origValid
  · intro p hp
    have h0 := hg.origEmpty p hp
    have hneidx : posIdx pos ≠ posIdx p.2.originalPosition := by
      intro hEq
      exact hne p hp (posIdx_inj (hg.origValid p hp) hv hEq.symm)
    simp only []
    rw [List.getElem?_set_ne hneidx]
    exact h0
  · exact hg.origDistinct

theorem step_checkout {inv inv' : Inventory} {itemId who : String} {today : Date}
    (hg : GoodInv inv)
    (hs : applyOp inv (.checkout itemId who today) = (inv', none)) :
    GoodInv inv' ∧ (liveItems inv').Perm (liveItems inv) := by
  simp only [applyOp, Inventory.checkoutItem] at hs
  cases hscan : scanShelves itemId inv.shelves with
  | none => rw [hscan] at hs; simp at hs
  | some r =>
    obtain ⟨k, it⟩ := r
    rw [hscan] at hs
    simp only [Prod.mk.injEq] at hs
    obtain ⟨hs, -⟩ := hs
    subst hs
    obtain ⟨hget, hmatch⟩ := scanShelves_getElem hscan
    have hk : k < inv.shelves.length := scanShelves_lt_length hscan
    have hk45 : k < 45 := by rw [← hg.len]; exact hk
    have hmId : getStringId it.getID = itemId := by simpa using hmatch
    have hitmem : some it ∈ inv.shelves := by
      rcases List.getElem?_eq_some_iff.mp hget with ⟨h', he'⟩
      exact he' ▸ List.getElem_mem h'
    have hgrid : itemId ∈ gridIds inv := by
      simp only [gridIds, List.mem_filterMap]
      exact ⟨some it, hitmem, by simp [hmId]⟩
    have hledger : itemId ∉ ledgerIds inv := by
      have hd := (List.nodup_append.mp hg.nodup).2.2
      exact fun hmem => hd hgrid hmem
    have hlk : lookupL inv.checkedOutItems itemId = none :=
      lookupL_eq_none.mpr hledger
    have hemp : emplaceL inv.checkedOutItems itemId
        ⟨who, formatDate (addDays30 today), ⟨(k : Int) / 15, (k : Int) % 15⟩, it⟩ =
        (itemId, ⟨who, formatDate (addDays30 today),
          ⟨(k : Int) / 15, (k : Int) % 15⟩, it⟩) :: inv.checkedOutItems := by
      simp [emplaceL, hlk]
    rw [hemp]
    have p1 := set_perm_cons_eraseIdx inv.shelves k (some it) none hget
    have p2 := perm_cons_eraseIdx inv.shelves k (some it) hget
    have q1 := p1.filterMap id
    have q2 := p2.filterMap id
    rw [List.filterMap_cons_none (rfl : id (none : Option Item) = none)] at q1
    rw [List.filterMap_cons_some (rfl : id (some it) = some it)] at q2
    have hperm : (liveItems ⟨inv.shelves.set k none,
        (itemId, ⟨who, formatDate (addDays30 today),
          ⟨(k : Int) / 15, (k : Int) % 15⟩, it⟩) :: inv.checkedOutItems⟩).Perm
        (liveItems inv) := by
      simp only [liveItems, List.map_cons]
      exact ((q1.append_right _).trans List.perm_middle).trans
        ((q2.append_right _).symm)
    refine ⟨⟨?_, ?_, ?_, ?_, ?_, ?_⟩, hperm⟩
    · simp [hg.len]
    · have e1 := @liveIds_eq_map ⟨inv.shelves.set k none,
        (itemId, ⟨who, formatDate (addDays30 today),
          ⟨(k : Int) / 15, (k : Int) % 15⟩, it⟩) :: inv.checkedOutItems⟩ ?_
      · rw [e1]
        have := (hperm.map (fun x => getStringId x.getID)).nodup_iff
        rw [← liveIds_eq_map hg.keyId] at this
        exact this.mpr hg.nodup
      · intro p hp
        rcases List.mem_cons.mp hp with rfl | hp'
        · simpa using hmId.symm
        · exact hg.keyId p hp'
    · intro p hp
      rcases List.mem_cons.mp hp with rfl | hp'
      · simpa using hmId.symm
      · exact hg.keyId p hp'
    · intro p hp
      rcases List.mem_cons.mp hp with rfl | hp'
      · exact posValid_mk hk45
      · exact hg.origValid p hp'
    · intro p hp
      rcases List.mem_cons.mp hp with rfl | hp'
      · simp only [posIdx_mk]
        exact List.getElem?_set_self hk
      · have h0 := hg.origEmpty p hp'
        have hne : k ≠ posIdx p.2.originalPosition := by
          intro hEq
          rw [← hEq] at h0
          rw [h0] at hget
          simp at hget
        rw [List.getElem?_set_ne hne]
        exact h0
    · refine List.Pairwise.cons ?_ hg.origDistinct
      intro q hq hEq
      have h0 := hg.origEmpty q hq
      have : posIdx (⟨(k : Int) / 15, (k : Int) % 15⟩ : Position) =
          posIdx q.2.originalPosition := congrArg posIdx hEq
      rw [posIdx_mk] at this
      rw [← this] at h0
      rw [h0] at hget
      simp at hget

theorem set_self_of_getElem? :
    ∀ (l : List α) (k : Nat) (a : α), l[k]? = some a → l.set k a = l
  | [], k, a, h => by simp at h
  | x :: xs, 0, a, h => by
    simp only [List.getElem?_cons_zero, Option.some.injEq] at h
    simp [h]
  | x :: xs, k + 1, a, h => by
    simp only [List.getElem?_cons_succ] at h
    simp [set_self_of_getElem? xs k a h]

theorem step_checkin {inv inv' : Inventory} {item : Item}
    (hg : GoodInv inv)
    (hs : applyOp inv (.checkin item) = (inv', none)) :
    GoodInv inv' ∧ (liveItems inv').Perm (liveItems inv) := by
  simp only [applyOp, Inventory.checkinItem] at hs
  cases hlk : lookupL inv.checkedOutItems (getStringId item.getID) with
  | none => rw [hlk] at hs; simp at hs
  | some info =>
    rw [hlk] at hs
    simp only [Prod.mk.injEq] at hs
    obtain ⟨hs, -⟩ := hs
    subst hs
    have hpl := lookupL_perm_erase hlk
    have hentry : (getStringId item.getID, info) ∈ inv.checkedOutItems :=
      hpl.mem_iff.mpr (List.mem_cons_self _ _)
    have hval : info.originalPosition.isValid = true := by
      have h := hg.origValid (getStringId item.getID, info) hentry
      simpa using h
    have hempty : inv.shelves[posIdx info.originalPosition]? = some none := by
      have h := hg.origEmpty (getStringId item.getID, info) hentry
      simpa using h
    have hk : posIdx info.originalPosition < inv.shelves.length := by
      rw [hg.len]; exact posIdx_lt_45 hval
    have p1 := set_perm_cons_eraseIdx inv.shelves (posIdx info.originalPosition)
      none (some info.item) hempty
    have p2 := perm_cons_eraseIdx inv.shelves (posIdx info.originalPosition)
      none hempty
    have q1 := p1.filterMap id
    have q2 := p2.filterMap id
    rw [List.filterMap_cons_some (rfl : id (some info.item) = some info.item)] at q1
    rw [List.filterMap_cons_none (rfl : id (none : Option Item) = none)] at q2
    have qm := hpl.map (fun p => p.2.item)
    rw [List.map_cons] at qm
    have hrest : ∀ q ∈ eraseL inv.checkedOutItems (getStringId item.getID),
        q ∈ inv.checkedOutItems :=
      fun q hq => List.eraseP_subset _ hq
    have hdistinct : ∀ q ∈ eraseL inv.checkedOutItems (getStringId item.getID),
        info.originalPosition ≠ q.2.originalPosition := by
      have hpw := (hpl.pairwise_iff (fun h => Ne.symm h)).mp hg.origDistinct
      intro q hq
      exact (List.pairwise_cons.mp hpw).1 q hq
    have hperm : (liveItems ⟨inv.shelves.set (posIdx info.originalPosition)
        (some info.item), eraseL inv.checkedOutItems (getStringId item.getID)⟩).Perm
        (liveItems inv) := by
      simp only [liveItems]
      exact (q1.append_right _).trans
        (((q2.append qm).trans List.perm_middle).symm)
    refine ⟨⟨?_, ?_, ?_, ?_, ?_, ?_⟩, hperm⟩
    · simp [hg.len]
    · have e1 := @liveIds_eq_map ⟨inv.shelves.set (posIdx info.originalPosition)
        (some info.item), eraseL inv.checkedOutItems (getStringId item.getID)⟩
        (fun q hq => hg.keyId q (hrest q hq))
      rw [e1]
      have := (hperm.map (fun x => getStringId x.getID)).nodup_iff
      rw [← liveIds_eq_map hg.keyId] at this
      exact this.mpr hg.nodup
    · exact fun q hq => hg.keyId q (hrest q hq)
    · exact fun q hq => hg.origValid q (hrest q hq)
    · intro q hq
      have h0 := hg.origEmpty q (hrest q hq)
      have hne : posIdx info.originalPosition ≠ posIdx q.2.originalPosition := by
        intro hEq
        exact hdistinct q hq
          (posIdx_inj hval (hg.origValid q (hrest q hq)) hEq)
      rw [List.getElem?_set_ne hne]
      exact h0
    · have hpw := (hpl.pairwise_iff (fun h => Ne.symm h)).mp hg.origDistinct
      exact (List.pairwise_cons.mp hpw).2

theorem nodup_of_perm_liveItems {inv inv' : Inventory}
    (hkey : ∀ p ∈ inv'.checkedOutItems, p.1 = getStringId p.2.item.getID)
    (hg : GoodInv inv)
    (hperm : (liveItems inv').Perm (liveItems inv)) :
    (liveIds inv').Nodup := by
  rw [liveIds_eq_map hkey]
  have h := (hperm.map (fun x => getStringId x.getID)).nodup_iff
  rw [← liveIds_eq_map hg.keyId] at h
  exact h.mpr hg.nodup

theorem step_swap {inv inv' : Inventory} {pos1 pos2 : Position}
    (hg : GoodInv inv)
    (hs : applyOp inv (.swapOp pos1 pos2) = (inv', none)) :
    GoodInv inv' ∧ (liveItems inv').Perm (liveItems inv) := by
  simp only [applyOp, Inventory.swapItems] at hs
  by_cases hv1 : pos1.isValid = true
  swap
  · simp only [Bool.not_eq_true] at hv1
    simp [hv1] at hs
  by_cases hv2 : pos2.isValid = true
  swap
  · simp only [Bool.not_eq_true] at hv2
    simp [hv1, hv2] at hs
  rw [if_neg (by simp [hv1, hv2])] at hs
  by_cases he1 : (inv.slotAt pos1).isNone = true
  · simp [he1] at hs
  by_cases he2 : (inv.slotAt pos2).isNone = true
  · simp [he2] at hs
  simp only [Bool.not_eq_true] at he1 he2
  rw [if_neg (by simp [he1, he2])] at hs
  rw [Prod.mk.injEq] at hs
  obtain ⟨hs, -⟩ := hs
  subst hs
  obtain ⟨v1, hget1⟩ := slot_some_some hg.len hv1 he1
  obtain ⟨v2, hget2⟩ := slot_some_some hg.len hv2 he2
  have hslot1 : inv.slotAt pos1 = some v1 := by simp [Inventory.slotAt, hget1]
  have hslot2 : inv.slotAt pos2 = some v2 := by simp [Inventory.slotAt, hget2]
  by_cases hidx : posIdx pos1 = posIdx pos2
  · have hpp : pos1 = pos2 := posIdx_inj hv1 hv2 hidx
    subst hpp
    have heq : ((inv.shelves.set (posIdx pos1) (inv.slotAt pos1)).set (posIdx pos1)
        (inv.slotAt pos1)) = inv.shelves := by
      rw [List.set_set, hslot1, set_self_of_getElem? inv.shelves (posIdx pos1)
        (some v1) hget1]
    rw [heq]
    exact ⟨hg, List.Perm.refl _⟩
  · have hl1i2 : (inv.shelves.set (posIdx pos1) (inv.slotAt pos2))[posIdx pos2]? =
        some (some v2) := by
      rw [List.getElem?_set_ne hidx]
      exact hget2
    have a2 := set_perm_cons_eraseIdx (inv.shelves.set (posIdx pos1) (inv.slotAt pos2))
      (posIdx pos2) (some v2) (inv.slotAt pos1) hl1i2
    have b2 := perm_cons_eraseIdx (inv.shelves.set (posIdx pos1) (inv.slotAt pos2))
      (posIdx pos2) (some v2) hl1i2
    have a1 := set_perm_cons_eraseIdx inv.shelves (posIdx pos1) (some v1)
      (inv.slotAt pos2) hget1
    have b1 := perm_cons_eraseIdx inv.shelves (posIdx pos1) (some v1) hget1
    simp only [hslot1, hslot2] at a1 a2 b2
    have A2 := a2.filterMap id
    have B2 := b2.filterMap id
    have A1 := a1.filterMap id
    have B1 := b1.filterMap id
    rw [List.filterMap_cons_some (rfl : id (some v1) = some v1)] at A2 B1
    rw [List.filterMap_cons_some (rfl : id (some v2) = some v2)] at B2 A1
    have hEE := (B2.symm.trans A1).cons_inv
    have hgridperm : (List.filterMap id
        ((inv.shelves.set (posIdx pos1) (inv.slotAt pos2)).set (posIdx pos2)
          (inv.slotAt pos1))).Perm (List.filterMap id inv.shelves) := by
      rw [hslot1, hslot2]
      exact (A2.trans (hEE.cons v1)).trans B1.symm
    have hperm : (liveItems ⟨(inv.shelves.set (posIdx pos1) (inv.slotAt pos2)).set
        (posIdx pos2) (inv.slotAt pos1), inv.checkedOutItems⟩).Perm
        (liveItems inv) := by
      simp only [liveItems]
      exact hgridperm.append_right _
    refine ⟨⟨?_, ?_, ?_, ?_, ?_, ?_⟩, hperm⟩
    · simp [hg.len]
    · exact nodup_of_perm_liveItems hg.keyId hg hperm
    · exact hg.keyId
    · exact hg.origValid
    · intro q hq
      have h0 := hg.origEmpty q hq
      have hne1 : posIdx pos1 ≠ posIdx q.2.originalPosition := by
        intro hEq
        rw [hEq] at hget1
        rw [h0] at hget1
        simp at hget1
      have hne2 : posIdx pos2 ≠ posIdx q.2.originalPosition := by
        intro hEq
        rw [hEq] at hget2
        rw [h0] at hget2
        simp at hget2
      simp only []
      rw [List.getElem?_set_ne hne2, List.getElem?_set_ne hne1]
      exact h0
    · exact hg.origDistinct

/-- One successful operation, under the uniqueness and no-shadow side
conditions, preserves the invariant, and the live items afterwards are exactly
the old live items plus whatever the operation added. -/
theorem step_good {inv inv' : Inventory} {op : Op}
    (hg : GoodInv inv) (hc : safeB inv op = true)
    (hs : applyOp inv op = (inv', none)) :
    GoodInv inv' ∧ (liveItems inv').Perm (addedItems op ++ liveItems inv) := by
  cases op with
  | add pos item =>
    simp only [safeB, Bool.and_eq_true] at hc
    exact step_add hg hc.1 hc.2 hs
  | checkout itemId who today => exact step_checkout hg hs
  | checkin item => exact step_checkin hg hs
  | swapOp p1 p2 => exact step_swap hg hs

theorem runTrace_good :
    ∀ (ops : List Op) (inv : Inventory), GoodInv inv →
      okTrace safeB inv ops = true →
      GoodInv (runTrace inv ops) ∧
        ∀ it ∈ liveItems inv, it ∈ liveItems (runTrace inv ops)
  | [], inv, hg, _ => ⟨hg, fun _ h => h⟩
  | op :: rest, inv, hg, hok => by
    simp only [okTrace, Bool.and_eq_true, Option.isNone_iff_eq_none] at hok
    obtain ⟨⟨hc, hnone⟩, hrest⟩ := hok
    have hs : applyOp inv op = ((applyOp inv op).1, none) := by
      rw [← hnone]
    obtain ⟨hg', hperm⟩ := step_good hg hc hs
    have ih := runTrace_good rest (applyOp inv op).1 hg' hrest
    refine ⟨by simpa [runTrace] using ih.1, ?_⟩
    intro it hit
    have hmem : it ∈ liveItems (applyOp inv op).1 :=
      hperm.mem_iff.mpr (List.mem_append_right _ hit)
    simpa [runTrace] using ih.2 it hmem

theorem runTrace_addedIds :
    ∀ (ops : List Op) (inv : Inventory), GoodInv inv →
      okTrace safeB inv ops = true →
      ∀ id ∈ addedIds ops, id ∈ liveIds (runTrace inv ops)
  | [], _, _, _ => by simp [addedIds]
  | op :: rest, inv, hg, hok => by
    simp only [okTrace, Bool.and_eq_true, Option.isNone_iff_eq_none] at hok
    obtain ⟨⟨hc, hnone⟩, hrest⟩ := hok
    have hs : applyOp inv op = ((applyOp inv op).1, none) := by
      rw [← hnone]
    obtain ⟨hg', hperm⟩ := step_good hg hc hs
    intro id hid
    cases op with
    | add pos item =>
      simp only [addedIds, List.filterMap_cons] at hid
      rcases List.mem_cons.mp hid with rfl | hid'
      · have hmem1 : item.slice ∈ liveItems (applyOp inv (.add pos item)).1 :=
          hperm.mem_iff.mpr (List.mem_cons_self _ _)
        have hfinal := runTrace_good rest _ hg' hrest
        have hmem2 := hfinal.1
        have hmem3 := (runTrace_good rest _ hg' hrest).2 _ hmem1
        have hids := liveIds_eq_map (runTrace_good rest _ hg' hrest).1.keyId
        rw [runTrace]
        rw [hids]
        refine List.mem_map.mpr ⟨item.slice, hmem3, ?_⟩
        rw [Item.getID_slice]
      · have := runTrace_addedIds rest (applyOp inv (.add pos item)).1 hg' hrest
          id (by simpa [addedIds] using hid')
        simpa [runTrace] using this
    | checkout itemId who today =>
      have := runTrace_addedIds rest _ hg' hrest id (by simpa [addedIds] using hid)
      simpa [runTrace] using this
    | checkin item =>
      have := runTrace_addedIds rest _ hg' hrest id (by simpa [addedIds] using hid)
      simpa [runTrace] using this
    | swapOp p1 p2 =>
      have := runTrace_addedIds rest _ hg' hrest id (by simpa [addedIds] using hid)
      simpa [runTrace] using this

theorem goodInv_empty : GoodInv Inventory.empty := by
  refine ⟨by simp [Inventory.empty], by decide, ?_, ?_, ?_, ?_⟩
  · intro p hp
    simp [Inventory.empty] at hp
  · intro p hp
    simp [Inventory.empty] at hp
  · intro p hp
    simp [Inventory.empty] at hp
  · simp [Inventory.empty]

theorem runTrace_append :
    ∀ (ops1 ops2 : List Op) (inv : Inventory),
      runTrace inv (ops1 ++ ops2) = runTrace (runTrace inv ops1) ops2
  | [], ops2, inv => rfl
  | op :: rest, ops2, inv => by
    simp only [List.cons_append, runTrace]
    exact runTrace_append rest ops2 _

theorem okTrace_append {cond : Inventory → Op → Bool} :
    ∀ (ops1 ops2 : List Op) (inv : Inventory),
      okTrace cond inv (ops1 ++ ops2) = true ↔
        (okTrace cond inv ops1 = true ∧
          okTrace cond (runTrace inv ops1) ops2 = true)
  | [], ops2, inv => by simp [okTrace, runTrace]
  | op :: rest, ops2, inv => by
    simp only [List.cons_append, okTrace, runTrace, Bool.and_eq_true, List.append_eq]
    rw [okTrace_append rest ops2 (applyOp inv op).1]
    tauto

/-- The overwriting interleaving: add item 1 at (0,0), check it out, add item 2
at the now-free (0,0), then check item 1 back in.  The checkin writes item 1
over item 2, and item 2 leaves the system. -/
def overwriteTrace : List Op :=
  [ .add ⟨0, 0⟩ (.base "x" "" 1),
    .checkout "1" "w" ⟨2025, 1, 1⟩,
    .add ⟨0, 0⟩ (.base "y" "" 2),
    .checkin (.base "" "" 1) ]

/-- Claim C2, counterexample: a trace of four successful operations with
externally unique identities (every `add` is fresh, `freshB`) after which the
added identity "2" is resident in neither the grid nor the ledger — the
"never absent from both" half of the claim fails, because `checkinItem`
overwrites the slot that a later `addItem` refilled. -/
theorem C2_counterexample :
    okTrace freshB Inventory.empty overwriteTrace = true ∧
    "2" ∈ addedIds overwriteTrace ∧
    ¬("2" ∈ gridIds (runTrace Inventory.empty overwriteTrace) ∨
      "2" ∈ ledgerIds (runTrace Inventory.empty overwriteTrace)) := by
  decide

/-- Claim C2 (amended): in every state reachable from a fresh `Inventory` by
successful operations with externally unique item identities, *provided no
`addItem` targets a checked-out item's original position*, every added identity
is owned by exactly one of a grid slot or a ledger record — never both, never
neither. -/
theorem C2_exclusive_ownership (ops : List Op)
    (hok : okTrace safeB Inventory.empty ops = true)
    (id : String) (hid : id ∈ addedIds ops) :
    (id ∈ gridIds (runTrace Inventory.empty ops) ∧
      id ∉ ledgerIds (runTrace Inventory.empty ops)) ∨
    (id ∉ gridIds (runTrace Inventory.empty ops) ∧
      id ∈ ledgerIds (runTrace Inventory.empty ops)) := by
  have hgood := (runTrace_good ops Inventory.empty goodInv_empty hok).1
  have hlive := runTrace_addedIds ops Inventory.empty goodInv_empty hok id hid
  have hnd := hgood.nodup
  rw [liveIds] at hnd hlive
  rcases List.mem_append.mp hlive with hgl | hll
  · exact Or.inl ⟨hgl, fun hll => (List.nodup_append.mp hnd).2.2 hgl hll⟩
  · exact Or.inr ⟨fun hgl => (List.nodup_append.mp hnd).2.2 hgl hll, hll⟩

/-- Witness for C2 at a concrete trace: after adding item 1 at (0,0) it is
grid-resident and not ledger-resident. -/
theorem C2_witness :
    ("1" ∈ gridIds (runTrace Inventory.empty [.add ⟨0, 0⟩ (.base "x" "" 1)]) ∧
      "1" ∉ ledgerIds (runTrace Inventory.empty [.add ⟨0, 0⟩ (.base "x" "" 1)])) ∨
    ("1" ∉ gridIds (runTrace Inventory.empty [.add ⟨0, 0⟩ (.base "x" "" 1)]) ∧
      "1" ∈ ledgerIds (runTrace Inventory.empty [.add ⟨0, 0⟩ (.base "x" "" 1)])) :=
  C2_exclusive_ownership [.add ⟨0, 0⟩ (.base "x" "" 1)] (by decide) "1" (by decide)

/-- Claim C7, counterexample: the very interleaving named by the claim — an
`addItem` at a checked-out item's original position followed by that item's
checkin — removes the intervening item (id 2) from the system, even though
every operation of the trace succeeds. -/
theorem C7_counterexample :
    okTrace (fun _ _ => true) Inventory.empty overwriteTrace = true ∧
    Item.base "y" "" 2 ∈ liveItems (runTrace Inventory.empty (overwriteTrace.take 3)) ∧
    Item.base "y" "" 2 ∉ liveItems (runTrace Inventory.empty overwriteTrace) := by
  decide

/-- Claim C7 (amended): under the spec's unique-identity assumption and
provided no `addItem` targets a checked-out item's original position, no
successful operation removes an item: every item live after the prefix `pre`
is still live after the rest of the trace runs. -/
theorem C7_no_item_removed (pre rest : List Op)
    (hok : okTrace safeB Inventory.empty (pre ++ rest) = true)
    (it : Item) (hmem : it ∈ liveItems (runTrace Inventory.empty pre)) :
    it ∈ liveItems (runTrace Inventory.empty (pre ++ rest)) := by
  obtain ⟨hok1, hok2⟩ := (okTrace_append pre rest Inventory.empty).mp hok
  have hg1 := (runTrace_good pre Inventory.empty goodInv_empty hok1).1
  have h := (runTrace_good rest (runTrace Inventory.empty pre) hg1 hok2).2 it hmem
  rwa [runTrace_append]

/-- Witness for C7 at a concrete trace: item 1, live after being added, is
still live after a checkout of it runs. -/
theorem C7_witness :
    Item.base "x" "" 1 ∈ liveItems (runTrace Inventory.empty
      ([Op.add ⟨0, 0⟩ (.base "x" "" 1)] ++ [Op.checkout "1" "w" ⟨2025, 1, 1⟩])) :=
  C7_no_item_removed [Op.add ⟨0, 0⟩ (.base "x" "" 1)]
    [Op.checkout "1" "w" ⟨2025, 1, 1⟩] (by decide) (Item.base "x" "" 1) (by decide)

/-- Claim C1 (code bug — object slicing): adding a Book at a valid empty
position succeeds, but what is stored is the copy `make_unique<Item>(item)`
makes at static type `Item`, i.e. the base-sliced `Item.base "n" "d" 1`; the
Book's title/author/copyright fields do not survive storage, so later display
cannot report them.  This contradicts the code's own comments ("Uses
dynamic_cast to preserve the specific item type") and the spec's
type-preservation contract. -/
theorem C1_addItem_slices_subtype :
    (Inventory.empty.addItem ⟨0, 0⟩ (Item.book "n" "d" 1 "T" "A" "2020")).2 = none ∧
    (Inventory.empty.addItem ⟨0, 0⟩
        (Item.book "n" "d" 1 "T" "A" "2020")).1.slotAt ⟨0, 0⟩ =
      some (Item.base "n" "d" 1) ∧
    Item.base "n" "d" 1 ≠ Item.book "n" "d" 1 "T" "A" "2020" := by
  decide

/-- Claim C10: `addItem` checks only position validity and compartment
emptiness — no identity uniqueness whatsoever.  At every valid empty position
it succeeds (no error of any kind) and stores the (sliced) item, no matter
which identities are already live on the grid or in the ledger. -/
theorem C10_addItem_no_uniqueness (inv : Inventory) (pos : Position) (item : Item)
    (hv : pos.isValid = true) (he : (inv.slotAt pos).isNone = true) :
    (inv.addItem pos item).2 = none ∧
    (inv.addItem pos item).1 =
      { inv with shelves := inv.shelves.set (posIdx pos) (some item.slice) } := by
  simp [Inventory.addItem, hv, he]

/-- A state that already holds identity 1 on the grid and identity 7 in the
ledger, used to witness that `addItem` accepts duplicate identities. -/
def dupInv : Inventory :=
  ⟨(List.replicate 45 (none : Option Item)).set 0 (some (.base "x" "" 1)),
   [("7", ⟨"w", "2026-01-04", ⟨0, 1⟩, .base "z" "" 7⟩)]⟩

/-- Witness for C10: adding a second item with identity 1 (already on the
grid) and another with identity 7 (already a ledger key) both succeed. -/
theorem C10_witness :
    (dupInv.addItem ⟨0, 2⟩ (Item.base "y" "" 1)).2 = none ∧
    (dupInv.addItem ⟨1, 3⟩ (Item.base "y" "" 7)).2 = none :=
  ⟨(C10_addItem_no_uniqueness dupInv ⟨0, 2⟩ (Item.base "y" "" 1)
      (by decide) (by decide)).1,
   (C10_addItem_no_uniqueness dupInv ⟨1, 3⟩ (Item.base "y" "" 7)
      (by decide) (by decide)).1⟩

/-- Claim C5: every operation performs all of its precondition checks before
any mutation, so a failing call leaves the Grid and the Ledger exactly as they
were (`isCompartmentEmpty` is a const method and is typed here without a state
component at all); in particular `addItem` at a position with row 3 or col 15
fails with `InvalidPosition` and touches nothing. -/
theorem C5_failure_leaves_state_unchanged :
    (∀ (inv inv' : Inventory) (pos : Position) (item : Item) (e : InvError),
      inv.addItem pos item = (inv', some e) → inv' = inv) ∧
    (∀ (inv : Inventory) (itemId who : String) (today : Date) (e : InvError),
      (inv.checkoutItem itemId who today).2 = .error e →
      (inv.checkoutItem itemId who today).1 = inv) ∧
    (∀ (inv inv' : Inventory) (item : Item) (e : InvError),
      inv.checkinItem item = (inv', some e) → inv' = inv) ∧
    (∀ (inv inv' : Inventory) (p1 p2 : Position) (e : InvError),
      inv.swapItems p1 p2 = (inv', some e) → inv' = inv) ∧
    (∀ (inv : Inventory) (col : Int) (item : Item),
      inv.addItem ⟨3, col⟩ item = (inv, some .invalidPosition)) ∧
    (∀ (inv : Inventory) (row : Int) (item : Item),
      inv.addItem ⟨row, 15⟩ item = (inv, some .invalidPosition)) := by
  refine ⟨?_, ?_, ?_, ?_, ?_, ?_⟩
  · intro inv inv' pos item e h
    simp only [Inventory.addItem] at h
    split at h
    · simp only [Prod.mk.injEq] at h
      exact h.1.symm
    · split at h
      · simp only [Prod.mk.injEq] at h
        exact h.1.symm
      · simp only [Prod.mk.injEq] at h
        exact absurd h.2 (by simp)
  · intro inv itemId who today e h
    simp only [Inventory.checkoutItem] at h ⊢
    cases hscan : scanShelves itemId inv.shelves with
    | none => rfl
    | some r =>
      rw [hscan] at h
      obtain ⟨k, it⟩ := r
      simp at h
  · intro inv inv' item e h
    simp only [Inventory.checkinItem] at h
    cases hlk : lookupL inv.checkedOutItems (getStringId item.getID) with
    | none =>
      rw [hlk] at h
      simp only [Prod.mk.injEq] at h
      exact h.1.symm
    | some info =>
      rw [hlk] at h
      simp only [Prod.mk.injEq] at h
      exact absurd h.2 (by simp)
  · intro inv inv' p1 p2 e h
    simp only [Inventory.swapItems] at h
    split at h
    · simp only [Prod.mk.injEq] at h
      exact h.1.symm
    · split at h
      · simp only [Prod.mk.injEq] at h
        exact h.1.symm
      · simp only [Prod.mk.injEq] at h
        exact absurd h.2 (by simp)
  · intro inv col item
    have hval : (⟨3, col⟩ : Position).isValid = false := by
      simp [Position.isValid]
    simp [Inventory.addItem, hval]
  · intro inv row item
    have hval : (⟨row, 15⟩ : Position).isValid = false := by
      simp [Position.isValid]
    simp [Inventory.addItem, hval]

/-- Witness for C5 at concrete inputs: a `SlotOccupied` failure of `addItem`,
an `ItemNotFound` failure of `checkoutItem` and the row-3 `InvalidPosition`
case all leave the state `dupInv` untouched. -/
theorem C5_witness :
    ((dupInv.addItem ⟨0, 0⟩ (Item.base "q" "" 9)).1 = dupInv ∧
      dupInv.addItem ⟨3, 7⟩ (Item.base "q" "" 9) = (dupInv, some .invalidPosition)) ∧
    (dupInv.checkoutItem "999" "w" ⟨2025, 1, 1⟩).1 = dupInv :=
  ⟨⟨C5_failure_leaves_state_unchanged.1 dupInv
      (dupInv.addItem ⟨0, 0⟩ (Item.base "q" "" 9)).1 ⟨0, 0⟩ (Item.base "q" "" 9)
      InvError.slotOccupied (by decide),
    C5_failure_leaves_state_unchanged.2.2.2.2.1 dupInv 7 (Item.base "q" "" 9)⟩,
   C5_failure_leaves_state_unchanged.2.1 dupInv "999" "w" ⟨2025, 1, 1⟩
     InvError.itemNotFound (by rfl)⟩

theorem getElem?_of_slotAt_some {inv : Inventory} {p : Position} {v : Item}
    (h : inv.slotAt p = some v) : inv.shelves[posIdx p]? = some (some v) := by
  simp only [Inventory.slotAt] at h
  cases hx : inv.shelves[posIdx p]? with
  | none => rw [hx] at h; simp at h
  | some x =>
    rw [hx] at h
    simp only [Option.join, Option.some_bind, id] at h
    rw [h]

/-- Claim C8: `swapItems` fails with `InvalidPosition` when either position is
invalid, with `EmptySlot` (both positions valid) when either compartment is
unoccupied, and on success exchanges exactly the two slots, leaving every other
slot and the entire ledger unchanged; a self-swap of a valid occupied slot
succeeds and changes nothing. -/
theorem C8_swap_contract (inv : Inventory) (p1 p2 : Position)
    (hlen : inv.shelves.length = 45) :
    (¬(p1.isValid = true ∧ p2.isValid = true) →
      inv.swapItems p1 p2 = (inv, some .invalidPosition)) ∧
    (p1.isValid = true → p2.isValid = true →
      ((inv.slotAt p1).isNone = true ∨ (inv.slotAt p2).isNone = true) →
      inv.swapItems p1 p2 = (inv, some .emptySlot)) ∧
    (∀ v1 v2 : Item, p1.isValid = true → p2.isValid = true →
      inv.slotAt p1 = some v1 → inv.slotAt p2 = some v2 →
      (inv.swapItems p1 p2).2 = none ∧
      (inv.swapItems p1 p2).1.checkedOutItems = inv.checkedOutItems ∧
      (inv.swapItems p1 p2).1.slotAt p1 = some v2 ∧
      (inv.swapItems p1 p2).1.slotAt p2 = some v1 ∧
      (∀ q : Position, posIdx q ≠ posIdx p1 → posIdx q ≠ posIdx p2 →
        (inv.swapItems p1 p2).1.slotAt q = inv.slotAt q)) ∧
    (∀ v : Item, p1.isValid = true → inv.slotAt p1 = some v →
      inv.swapItems p1 p1 = (inv, none)) := by
  refine ⟨?_, ?_, ?_, ?_⟩
  · intro hnv
    have hcond : (!p1.isValid || !p2.isValid) = true := by
      by_cases h1 : p1.isValid = true
      · by_cases h2 : p2.isValid = true
        · exact absurd ⟨h1, h2⟩ hnv
        · simp only [Bool.not_eq_true] at h2
          simp [h2]
      · simp only [Bool.not_eq_true] at h1
        simp [h1]
    simp [Inventory.swapItems, hcond]
  · intro hv1 hv2 hem
    have hcond : ((inv.slotAt p1).isNone || (inv.slotAt p2).isNone) = true := by
      rcases hem with h | h <;> simp [h]
    simp [Inventory.swapItems, hv1, hv2, hcond]
  · intro v1 v2 hv1 hv2 h1 h2
    have hg1 := getElem?_of_slotAt_some h1
    have hg2 := getElem?_of_slotAt_some h2
    have hi1 : posIdx p1 < inv.shelves.length := by
      rw [hlen]; exact posIdx_lt_45 hv1
    have hi2 : posIdx p2 < inv.shelves.length := by
      rw [hlen]; exact posIdx_lt_45 hv2
    have hres : inv.swapItems p1 p2 =
        (⟨(inv.shelves.set (posIdx p1) (inv.slotAt p2)).set (posIdx p2)
            (inv.slotAt p1), inv.checkedOutItems⟩, none) := by
      simp [Inventory.swapItems, hv1, hv2, h1, h2]
    rw [h1, h2] at hres
    rw [hres]
    by_cases hidx : posIdx p1 = posIdx p2
    · have hp : p1 = p2 := posIdx_inj hv1 hv2 hidx
      subst hp
      have hv12 : v1 = v2 := by
        rw [h1] at h2
        exact Option.some.inj h2
      subst hv12
      refine ⟨rfl, rfl, ?_, ?_, ?_⟩
      · simp only [Inventory.slotAt, List.set_set]
        rw [List.getElem?_set_self (by simpa using hi1)]
        rfl
      · simp only [Inventory.slotAt, List.set_set]
        rw [List.getElem?_set_self (by simpa using hi1)]
        rfl
      · intro q hq1 hq2
        simp only [Inventory.slotAt, List.set_set]
        rw [List.getElem?_set_ne (fun e => hq1 e.symm)]
    · refine ⟨rfl, rfl, ?_, ?_, ?_⟩
      · simp only [Inventory.slotAt]
        rw [List.getElem?_set_ne (fun e => hidx e.symm),
          List.getElem?_set_self hi1]
        rfl
      · simp only [Inventory.slotAt]
        rw [List.getElem?_set_self (by simpa using hi2)]
        rfl
      · intro q hq1 hq2
        simp only [Inventory.slotAt]
        rw [List.getElem?_set_ne (fun e => hq2 e.symm),
          List.getElem?_set_ne (fun e => hq1 e.symm)]
  · intro v hv h1
    have hg := getElem?_of_slotAt_some h1
    have hres : inv.swapItems p1 p1 =
        (⟨(inv.shelves.set (posIdx p1) (inv.slotAt p1)).set (posIdx p1)
            (inv.slotAt p1), inv.checkedOutItems⟩, none) := by
      simp [Inventory.swapItems, hv, h1]
    rw [hres, h1, List.set_set,
      set_self_of_getElem? inv.shelves (posIdx p1) (some v) hg]

/-- A state with items at (0,0) and (1,2), for the swap witness. -/
def c8Inv : Inventory :=
  ⟨((List.replicate 45 (none : Option Item)).set 0 (some (.base "x" "" 1))).set 17
      (some (.base "y" "" 2)), []⟩

/-- Witness for C8 at concrete inputs: swapping (0,0) and (1,2) exchanges the
two items, and a self-swap at (0,0) returns the state unchanged. -/
theorem C8_witness :
    ((c8Inv.swapItems ⟨0, 0⟩ ⟨1, 2⟩).2 = none ∧
      (c8Inv.swapItems ⟨0, 0⟩ ⟨1, 2⟩).1.slotAt ⟨0, 0⟩ = some (.base "y" "" 2) ∧
      (c8Inv.swapItems ⟨0, 0⟩ ⟨1, 2⟩).1.slotAt ⟨1, 2⟩ = some (.base "x" "" 1)) ∧
    c8Inv.swapItems ⟨0, 0⟩ ⟨0, 0⟩ = (c8Inv, none) := by
  refine ⟨?_, (C8_swap_contract c8Inv ⟨0, 0⟩ ⟨0, 0⟩ (by decide)).2.2.2
    (.base "x" "" 1) (by decide) (by decide)⟩
  obtain ⟨ha, -, hc, hd, -⟩ := (C8_swap_contract c8Inv ⟨0, 0⟩ ⟨1, 2⟩
    (by decide)).2.2.1 (.base "x" "" 1) (.base "y" "" 2)
    (by decide) (by decide) (by decide) (by decide)
  exact ⟨ha, hc, hd⟩

theorem lookupL_mem_keys {l : Ledger} {k : String} {info : CheckoutInfo}
    (h : lookupL l k = some info) : k ∈ l.map Prod.fst := by
  simp only [lookupL, Option.map_eq_some'] at h
  obtain ⟨p, hfind, -⟩ := h
  have hmem := List.mem_of_find?_eq_some hfind
  have hbeq := List.find?_some hfind
  simp only [beq_iff_eq] at hbeq
  exact List.mem_map.mpr ⟨p, hmem, hbeq⟩

/-- Claim C3: `checkinItem` fails with `NotCheckedOut` exactly when the decimal
string of the passed item's id is not a ledger key; it reads nothing but that
id (any stand-in with the same id produces the identical result); and on
success it writes the ledger record's held item into the slot at the record's
`originalPosition` and erases that ledger entry. -/
theorem C3_checkin_contract (inv : Inventory) (item : Item) :
    ((inv.checkinItem item).2 = some .notCheckedOut ↔
      getStringId item.getID ∉ inv.checkedOutItems.map Prod.fst) ∧
    (∀ standIn : Item, standIn.getID = item.getID →
      inv.checkinItem standIn = inv.checkinItem item) ∧
    (∀ info, lookupL inv.checkedOutItems (getStringId item.getID) = some info →
      inv.checkinItem item =
        (⟨inv.shelves.set (posIdx info.originalPosition) (some info.item),
          eraseL inv.checkedOutItems (getStringId item.getID)⟩, none)) := by
  refine ⟨?_, ?_, ?_⟩
  · cases hlk : lookupL inv.checkedOutItems (getStringId item.getID) with
    | none =>
      simp only [Inventory.checkinItem, hlk]
      exact ⟨fun _ => lookupL_eq_none.mp hlk, fun _ => trivial⟩
    | some info =>
      simp only [Inventory.checkinItem, hlk]
      exact ⟨fun h => absurd h (by simp),
        fun h => absurd (lookupL_mem_keys hlk) h⟩
  · intro standIn h
    simp only [Inventory.checkinItem, h]
  · intro info hlk
    simp only [Inventory.checkinItem, hlk]

/-- A state whose ledger holds exactly one record, for item 5 checked out from
(0,3); its grid is entirely empty. -/
def c3Inv : Inventory :=
  ⟨List.replicate 45 none, [("5", ⟨"w", "2026-01-04", ⟨0, 3⟩, .base "n" "d" 5⟩)]⟩

/-- Witness for C3 at concrete inputs: checking item 5 in through a bare
stand-in restores the held item to slot (0,3) and empties the ledger; for the
absent id 9 the failure is equivalent to "9" not being a ledger key. -/
theorem C3_witness :
    c3Inv.checkinItem (.base "" "" 5) =
      (⟨(List.replicate 45 (none : Option Item)).set 3
          (some (.base "n" "d" 5)), []⟩, none) ∧
    ((c3Inv.checkinItem (.base "" "" 9)).2 = some .notCheckedOut ↔
      getStringId (Item.base "" "" 9).getID ∉ c3Inv.checkedOutItems.map Prod.fst) := by
  constructor
  · have h := (C3_checkin_contract c3Inv (.base "" "" 5)).2.2
      ⟨"w", "2026-01-04", ⟨0, 3⟩, .base "n" "d" 5⟩ (by decide)
    rw [h]
    decide
  · exact (C3_checkin_contract c3Inv (.base "" "" 9)).1

theorem checkout_err_iff (inv : Inventory) (itemId who : String) (today : Date) :
    (inv.checkoutItem itemId who today).2 = .error .itemNotFound ↔
      scanShelves itemId inv.shelves = none := by
  cases hscan : scanShelves itemId inv.shelves with
  | none => simp [Inventory.checkoutItem, hscan]
  | some r =>
    obtain ⟨k, it⟩ := r
    simp [Inventory.checkoutItem, hscan]

theorem scanShelves_replicate_none (itemId : String) :
    ∀ n, scanShelves itemId (List.replicate n none) = none
  | 0 => rfl
  | n + 1 => by
    simp only [List.replicate, scanShelves, scanShelves_replicate_none itemId n,
      Option.map_none']

/-- Claim C4: `checkoutItem` searches only the grid: it fails with
`ItemNotFound` exactly when no occupied slot's item carries the requested id
(the outcome is the same whatever the ledger holds, and on a fully empty grid
it always fails, whatever is checked out); and when the row-major scan finds a
first match at flat index k, that slot is occupied by a matching item, no
earlier slot matches, the matched item is returned and exactly that slot is
vacated. -/
theorem C4_checkout_scan_contract (inv : Inventory) (itemId who : String)
    (today : Date) :
    ((inv.checkoutItem itemId who today).2 = .error .itemNotFound ↔
      ∀ (k : Nat) (it : Item), inv.shelves[k]? = some (some it) →
        getStringId it.getID ≠ itemId) ∧
    (∀ L : Ledger,
      ((Inventory.checkoutItem ⟨inv.shelves, L⟩ itemId who today).2 =
          .error .itemNotFound ↔
        (inv.checkoutItem itemId who today).2 = .error .itemNotFound)) ∧
    (Inventory.checkoutItem ⟨List.replicate 45 none, inv.checkedOutItems⟩
        itemId who today).2 = .error .itemNotFound ∧
    (∀ (k : Nat) (it : Item), scanShelves itemId inv.shelves = some (k, it) →
      k < inv.shelves.length ∧ inv.shelves[k]? = some (some it) ∧
      getStringId it.getID = itemId ∧
      (∀ (j : Nat), j < k → ∀ (it' : Item), inv.shelves[j]? = some (some it') →
        getStringId it'.getID ≠ itemId) ∧
      (inv.checkoutItem itemId who today).2 = .ok it ∧
      (inv.checkoutItem itemId who today).1.shelves = inv.shelves.set k none) := by
  refine ⟨?_, ?_, ?_, ?_⟩
  · rw [checkout_err_iff, scanShelves_eq_none]
    constructor
    · intro h k it hget heq
      have hmem : some it ∈ inv.shelves := by
        rcases List.getElem?_eq_some_iff.mp hget with ⟨h', he'⟩
        exact he' ▸ List.getElem_mem h'
      have := h (some it) hmem it rfl
      rw [heq] at this
      simp at this
    · intro h slot hmem it hit
      subst hit
      obtain ⟨k, hk⟩ := List.getElem?_of_mem hmem
      have := h k it hk
      simp only [beq_eq_false_iff_ne]
      exact this
  · intro L
    rw [checkout_err_iff, checkout_err_iff]
  · rw [checkout_err_iff]
    exact scanShelves_replicate_none itemId 45
  · intro k it hscan
    obtain ⟨hget, hmatch⟩ := scanShelves_getElem hscan
    refine ⟨scanShelves_lt_length hscan, hget, by simpa using hmatch, ?_, ?_, ?_⟩
    · intro j hj it' hget'
      have := scanShelves_first hscan j hj it' hget'
      simp only [beq_eq_false_iff_ne] at this
      exact this
    · simp [Inventory.checkoutItem, hscan]
    · simp [Inventory.checkoutItem, hscan]

/-- A state with two items both carrying identity 3, at flat indices 5 and 20
(positions (0,5) and (1,5)), for the checkout witness. -/
def c4Inv : Inventory :=
  ⟨((List.replicate 45 (none : Option Item)).set 5 (some (.base "a" "" 3))).set 20
      (some (.base "b" "" 3)), []⟩

/-- Witness for C4 at concrete inputs: with two matching items on the grid the
row-major scan acts on the first one (index 5), returning it and vacating its
slot; and on an empty grid a checkout of id 5 fails with `ItemNotFound` even
though "5" is a ledger key of `c3Inv`. -/
theorem C4_witness :
    ((c4Inv.checkoutItem "3" "w" ⟨2025, 1, 1⟩).2 = .ok (Item.base "a" "" 3) ∧
      (c4Inv.checkoutItem "3" "w" ⟨2025, 1, 1⟩).1.shelves =
        c4Inv.shelves.set 5 none) ∧
    (Inventory.checkoutItem ⟨List.replicate 45 none, c3Inv.checkedOutItems⟩
        "5" "w" ⟨2025, 1, 1⟩).2 = .error .itemNotFound := by
  constructor
  · have h := (C4_checkout_scan_contract c4Inv "3" "w" ⟨2025, 1, 1⟩).2.2.2 5
      (Item.base "a" "" 3) (by decide)
    exact ⟨h.2.2.2.2.1, h.2.2.2.2.2⟩
  · exact (C4_checkout_scan_contract c3Inv "5" "w" ⟨2025, 1, 1⟩).2.2.1

theorem scanShelves_set_of_nomatch {itemId : String} :
    ∀ (l : List (Option Item)) (k : Nat) (it : Item),
      k < l.length →
      (∀ slot ∈ l, ∀ x, slot = some x →
        (getStringId x.getID == itemId) = false) →
      (getStringId it.getID == itemId) = true →
      scanShelves itemId (l.set k (some it)) = some (k, it)
  | [], k, it, hk, _, _ => by simp at hk
  | slot :: rest, 0, it, _, _, hmatch => by
    simp [scanShelves, hmatch]
  | slot :: rest, k + 1, it, hk, hnom, hmatch => by
    have ih := scanShelves_set_of_nomatch rest k it (by simpa using hk)
      (fun s hs => hnom s (List.mem_cons_of_mem _ hs)) hmatch
    simp only [List.set_cons_succ, scanShelves]
    cases hx : slot with
    | none => simp [ih]
    | some x =>
      have := hnom slot (List.mem_cons_self _ _) x hx
      simp [this, ih]

/-- Claim C6, counterexample: a Book added at (0,0), checked out and checked
back in ends up back at (0,0), but the slot holds the base-sliced copy
`Item.base "n" "d" 1`, not a value carrying the Book subtype and its
title/author/copyright fields — the round trip does not restore "what was
originally added", because `addItem` already sliced it. -/
theorem C6_counterexample :
    okTrace (fun _ _ => true) Inventory.empty
      [ .add ⟨0, 0⟩ (.book "n" "d" 1 "T" "A" "2020"),
        .checkout "1" "w" ⟨2025, 1, 1⟩,
        .checkin (.base "" "" 1) ] = true ∧
    (runTrace Inventory.empty
      [ .add ⟨0, 0⟩ (.book "n" "d" 1 "T" "A" "2020"),
        .checkout "1" "w" ⟨2025, 1, 1⟩,
        .checkin (.base "" "" 1) ]).slotAt ⟨0, 0⟩ = some (.base "n" "d" 1) ∧
    (some (Item.base "n" "d" 1) ≠ some (Item.book "n" "d" 1 "T" "A" "2020")) := by
  decide

/-- Claim C6 (amended): for any item added at a valid empty position p of a
state holding no other live occurrence of its identity, a checkout of that
identity followed immediately by a checkin with an identity-bearing stand-in
returns the state to exactly the post-add state: the slot at p is occupied
again by the stored copy (the base-sliced image of the added item — identical
to what `addItem` stored, not to the subtype-bearing original), and the ledger
entry is gone. -/
theorem C6_roundtrip (inv : Inventory) (pos : Position) (item : Item)
    (hlen : inv.shelves.length = 45)
    (hv : pos.isValid = true)
    (he : (inv.slotAt pos).isNone = true)
    (hnogrid : ∀ (k : Nat) (it : Item), inv.shelves[k]? = some (some it) →
      getStringId it.getID ≠ getStringId item.getID)
    (hnoledger : getStringId item.getID ∉ inv.checkedOutItems.map Prod.fst)
    (standIn : Item) (hstand : standIn.getID = item.getID)
    (who : String) (today : Date) :
    inv.addItem pos item =
      ({ inv with shelves := inv.shelves.set (posIdx pos) (some item.slice) },
        none) ∧
    ({ inv with shelves := inv.shelves.set (posIdx pos) (some item.slice)
      } : Inventory).checkoutItem (getStringId item.getID) who today =
      (⟨(inv.shelves.set (posIdx pos) (some item.slice)).set (posIdx pos) none,
        (getStringId item.getID,
          ⟨who, formatDate (addDays30 today),
            ⟨(posIdx pos : Int) / 15, (posIdx pos : Int) % 15⟩, item.slice⟩) ::
          inv.checkedOutItems⟩, .ok item.slice) ∧
    Inventory.checkinItem
      ⟨(inv.shelves.set (posIdx pos) (some item.slice)).set (posIdx pos) none,
        (getStringId item.getID,
          ⟨who, formatDate (addDays30 today),
            ⟨(posIdx pos : Int) / 15, (posIdx pos : Int) % 15⟩, item.slice⟩) ::
          inv.checkedOutItems⟩ standIn =
      ({ inv with shelves := inv.shelves.set (posIdx pos) (some item.slice) },
        none) ∧
    ({ inv with shelves := inv.shelves.set (posIdx pos) (some item.slice)
      } : Inventory).slotAt pos = some item.slice := by
  have hkl : posIdx pos < inv.shelves.length := by
    rw [hlen]; exact posIdx_lt_45 hv
  have hnom : ∀ slot ∈ inv.shelves, ∀ x, slot = some x →
      (getStringId x.getID == getStringId item.getID) = false := by
    intro slot hmem x hx
    subst hx
    obtain ⟨j, hj⟩ := List.getElem?_of_mem hmem
    have := hnogrid j x hj
    simpa using this
  have hscan : scanShelves (getStringId item.getID)
      (inv.shelves.set (posIdx pos) (some item.slice)) =
      some (posIdx pos, item.slice) :=
    scanShelves_set_of_nomatch inv.shelves (posIdx pos) item.slice hkl hnom
      (by simp [Item.getID_slice])
  have hlk : lookupL inv.checkedOutItems (getStringId item.getID) = none :=
    lookupL_eq_none.mpr hnoledger
  have hidStr : getStringId standIn.getID = getStringId item.getID := by
    rw [hstand]
  refine ⟨by simp [Inventory.addItem, hv, he], ?_, ?_, ?_⟩
  · simp [Inventory.checkoutItem, hscan, emplaceL, hlk]
  · simp only [Inventory.checkinItem, hidStr]
    have hlk2 : lookupL
        ((getStringId item.getID,
          ⟨who, formatDate (addDays30 today),
            ⟨(posIdx pos : Int) / 15, (posIdx pos : Int) % 15⟩, item.slice⟩) ::
          inv.checkedOutItems) (getStringId item.getID) =
        some ⟨who, formatDate (addDays30 today),
          ⟨(posIdx pos : Int) / 15, (posIdx pos : Int) % 15⟩, item.slice⟩ := by
      simp [lookupL]
    rw [hlk2]
    have hposIdx : posIdx (⟨(posIdx pos : Int) / 15, (posIdx pos : Int) % 15⟩ :
        Position) = posIdx pos := posIdx_mk (posIdx pos)
    have herase : List.eraseP (fun p => p.1 == getStringId item.getID)
        ((getStringId item.getID,
          (⟨who, formatDate (addDays30 today),
            ⟨(posIdx pos : Int) / 15, (posIdx pos : Int) % 15⟩,
            item.slice⟩ : CheckoutInfo)) :: inv.checkedOutItems) =
        inv.checkedOutItems :=
      List.eraseP_cons_of_pos (by simp)
    simp only [hposIdx, List.set_set, eraseL, herase]
  · simp only [Inventory.slotAt]
    rw [List.getElem?_set_self hkl]
    rfl

theorem empty_no_item (k : Nat) (it : Item) :
    Inventory.empty.shelves[k]? = some (some it) → False := by
  intro h
  simp only [Inventory.empty] at h
  rcases Nat.lt_or_ge k 45 with hk | hk
  · rw [List.getElem?_eq_getElem (by simpa using hk)] at h
    rw [List.getElem_replicate] at h
    exact Option.noConfusion (Option.some.inj h)
  · rw [List.getElem?_eq_none (by simpa using hk)] at h
    exact Option.noConfusion h

/-- Witness for C6 at a concrete input: the round trip of a Book through
`Inventory.empty` at (0,0) — the add succeeds and the restored slot holds the
stored (sliced) copy. -/
theorem C6_witness :
    (Inventory.empty.addItem ⟨0, 0⟩ (Item.book "n" "d" 1 "T" "A" "2020")).2 =
      none ∧
    (⟨Inventory.empty.shelves.set (posIdx ⟨0, 0⟩)
        (some (Item.book "n" "d" 1 "T" "A" "2020").slice), []⟩ :
      Inventory).slotAt ⟨0, 0⟩ =
      some (Item.book "n" "d" 1 "T" "A" "2020").slice := by
  have h := C6_roundtrip Inventory.empty ⟨0, 0⟩ (Item.book "n" "d" 1 "T" "A" "2020")
    (by decide) (by decide) (by decide)
    (fun k it hk => (empty_no_item k it hk).elim)
    (by simp [Inventory.empty])
    (Item.base "" "" 1) (by decide) "w" ⟨2025, 12, 5⟩
  exact ⟨by rw [h.1], h.2.2.2⟩

theorem daysInMonth_ge (y m : Nat) : 28 ≤ daysInMonth y m := by
  unfold daysInMonth
  split
  · split <;> omega
  · split <;> omega

theorem specNextDay_wf {t : Date} (h : t.wf) : (specNextDay t).wf := by
  obtain ⟨h1, h2, h3, h4⟩ := h
  unfold specNextDay Date.wf
  split
  · split
    · refine ⟨by dsimp only; omega, by dsimp only; omega,
        by dsimp only; omega, ?_⟩
      dsimp only
      have := daysInMonth_ge (t.year + 1) 1
      omega
    · refine ⟨by dsimp only; omega, by dsimp only; omega,
        by dsimp only; omega, ?_⟩
      dsimp only
      have := daysInMonth_ge t.year (t.month + 1)
      omega
  · exact ⟨h1, h2, by dsimp only; omega, by dsimp only; omega⟩

theorem normD_of_le {fuel y m d : Nat} (h : d ≤ daysInMonth y m) :
    normD fuel y m d = (y, m, d) := by
  cases fuel with
  | zero => rfl
  | succ f =>
    simp only [normD]
    rw [if_neg (by omega)]

theorem normD_spec (n : Nat) : ∀ (fuel : Nat) (t : Date), t.wf → n ≤ fuel →
    normD fuel t.year t.month (t.day + n) =
      ((specAddDays n t).year, (specAddDays n t).month, (specAddDays n t).day) := by
  induction n with
  | zero =>
    intro fuel t hwf _
    simp only [Nat.add_zero, specAddDays, Function.iterate_zero, id]
    exact normD_of_le hwf.2.2.2
  | succ n ih =>
    intro fuel t hwf hle
    obtain ⟨h1, h2, h3, h4⟩ := hwf
    have hiter : specAddDays (n + 1) t = specAddDays n (specNextDay t) := by
      simp [specAddDays, Function.iterate_succ_apply]
    rw [hiter]
    by_cases hd : t.day = daysInMonth t.year t.month
    · obtain ⟨f, rfl⟩ : ∃ f, fuel = f + 1 := ⟨fuel - 1, by omega⟩
      simp only [normD]
      rw [if_pos (by omega)]
      by_cases hm : t.month = 12
      · rw [if_pos (by omega)]
        have hnext : specNextDay t = ⟨t.year + 1, 1, 1⟩ := by
          unfold specNextDay
          rw [if_pos (by omega), if_pos hm]
        have harith : t.day + (n + 1) - daysInMonth t.year t.month = 1 + n := by
          omega
        rw [harith, hnext]
        exact ih f ⟨t.year + 1, 1, 1⟩
          ⟨by dsimp only; omega, by dsimp only; omega, by dsimp only; omega,
            by dsimp only; have := daysInMonth_ge (t.year + 1) 1; omega⟩
          (by omega)
      · rw [if_neg (by omega)]
        have hnext : specNextDay t = ⟨t.year, t.month + 1, 1⟩ := by
          unfold specNextDay
          rw [if_pos (by omega), if_neg hm]
        have harith : t.day + (n + 1) - daysInMonth t.year t.month = 1 + n := by
          omega
        rw [harith, hnext]
        exact ih f ⟨t.year, t.month + 1, 1⟩
          ⟨by dsimp only; omega, by dsimp only; omega, by dsimp only; omega,
            by dsimp only; have := daysInMonth_ge t.year (t.month + 1); omega⟩
          (by omega)
    · have hnext : specNextDay t = ⟨t.year, t.month, t.day + 1⟩ := by
        unfold specNextDay
        rw [if_neg (by omega)]
      have harith : t.day + (n + 1) = (t.day + 1) + n := by omega
      rw [harith, hnext]
      exact ih fuel ⟨t.year, t.month, t.day + 1⟩
        ⟨h1, h2, by dsimp only; omega, by dsimp only; omega⟩ (by omega)

theorem addDays30_spec {t : Date} (hwf : t.wf) :
    addDays30 t = specAddDays 30 t := by
  have h := normD_spec 30 (t.day + 30) t hwf (by omega)
  simp only [addDays30]
  rw [h]

/-- Claim C9: on a successful checkout (of an identity not already a ledger
key, so that `emplace` creates a new record), the new record's `dueDate` is
the `YYYY-MM-DD` rendering of the current date plus 30 calendar days: the
code's mday+30-then-`mktime`-normalise computation (`addDays30`) coincides
with 30 iterations of the spec-side calendar successor (`specAddDays`),
with calendar-correct month and year rollover. -/
theorem C9_duedate_contract (inv : Inventory) (itemId who : String)
    (today : Date) (hwf : today.wf)
    (hfresh : lookupL inv.checkedOutItems itemId = none)
    (k : Nat) (it : Item)
    (hscan : scanShelves itemId inv.shelves = some (k, it)) :
    lookupL (inv.checkoutItem itemId who today).1.checkedOutItems itemId =
      some ⟨who, formatDate (specAddDays 30 today),
        ⟨(k : Int) / 15, (k : Int) % 15⟩, it⟩ ∧
    addDays30 today = specAddDays 30 today := by
  have hnorm : addDays30 today = specAddDays 30 today := addDays30_spec hwf
  refine ⟨?_, hnorm⟩
  have hemp : emplaceL inv.checkedOutItems itemId
      ⟨who, formatDate (addDays30 today),
        ⟨(k : Int) / 15, (k : Int) % 15⟩, it⟩ =
      (itemId, ⟨who, formatDate (addDays30 today),
        ⟨(k : Int) / 15, (k : Int) % 15⟩, it⟩) :: inv.checkedOutItems := by
    simp [emplaceL, hfresh]
  simp only [Inventory.checkoutItem, hscan]
  rw [hemp]
  simp [lookupL, hnorm]

set_option maxRecDepth 4000 in
/-- Witness for C9 at a concrete input: checking item 3 out of `c4Inv` on
2025-12-05 stores due date 2026-01-04 — 30 calendar days later, rolling over
December into January of the next year. -/
theorem C9_witness :
    (lookupL (c4Inv.checkoutItem "3" "w" ⟨2025, 12, 5⟩).1.checkedOutItems "3" =
      some ⟨"w", formatDate (specAddDays 30 ⟨2025, 12, 5⟩),
        ⟨(5 : Int) / 15, (5 : Int) % 15⟩, Item.base "a" "" 3⟩ ∧
      addDays30 ⟨2025, 12, 5⟩ = specAddDays 30 ⟨2025, 12, 5⟩) ∧
    formatDate (specAddDays 30 ⟨2025, 12, 5⟩) = "2026-01-04" := by
  refine ⟨?_, by decide⟩
  exact C9_duedate_contract c4Inv "3" "w" ⟨2025, 12, 5⟩ (by decide) (by decide)
    5 (Item.base "a" "" 3) (by decide)
